import Mathlib

/-!
Shallow embedding of `modelscope/models/nlp/veco/token_classification.py`
(class `VecoForTokenClassification`) and proofs of its specification.

The file under verification is glue code: a constructor delegating to two
parent initializers, a `forward` that forces `return_dict=True` and
repackages four fields of the delegated result, and a `_instantiate`
factory that resolves `label2id` / `id2label` / `num_labels` keyword
arguments before delegating to an external `from_pretrained` loader.

Python dicts are modelled as association lists in insertion order with
unique keys; a dict comprehension is a left fold of an insert-with-overwrite
operation (Python semantics: re-inserting an existing key updates its value
in place, a new key is appended). External collaborators
(`parse_label_mapping`, `VecoConfig`, the parent `forward`, the parent
`from_pretrained`) are opaque parameters; the factory and the constructor
are embedded both as trace functions recording the external calls they
make, and as `Except`-valued functions for error-propagation claims.
-/

namespace VecoTC

/-- Python dict insert: if the key is present, update its value in place
(keeping key order); otherwise append the new pair at the end. -/
def pyInsert {α β : Type} [DecidableEq α] (d : List (α × β)) (k : α) (v : β) :
    List (α × β) :=
  if d.any (fun p => decide (p.1 = k)) then
    d.map (fun p => if p.1 = k then (p.1, v) else p)
  else
    d ++ [(k, v)]

/-- Build a Python dict from a sequence of key-value pairs (the semantics of
a dict comprehension): later pairs overwrite earlier ones with the same key. -/
def pyDict {α β : Type} [DecidableEq α] (l : List (α × β)) : List (α × β) :=
  l.foldl (fun acc p => pyInsert acc p.1 p.2) []

/-- Python dict lookup `d[k]` / `d.get(k)` as an `Option`. -/
def dget {α β : Type} [DecidableEq α] : List (α × β) → α → Option β
  | [], _ => none
  | p :: t, k => if p.1 = k then some p.2 else dget t k

/-- The value attached to the LAST occurrence of a key in a raw pair
sequence; this is what a dict comprehension keeps for a duplicated key. -/
def lastLookup {α β : Type} [DecidableEq α] : List (α × β) → α → Option β
  | [], _ => none
  | p :: t, k =>
    match lastLookup t k with
    | some v => some v
    | none => if p.1 = k then some p.2 else none

/-- The dict comprehension `{v: k for k, v in d.items()}` from the source:
swap every pair of `d` and rebuild a dict, later entries overwriting. -/
def invertDict {α β : Type} [DecidableEq β] (d : List (α × β)) :
    List (β × α) :=
  pyDict (d.map (fun p => (p.2, p.1)))

/-- A `label2id` mapping: a Python dict from label names to integer ids. -/
abbrev L2I := List (String × Nat)

/-- An `id2label` mapping: a Python dict from integer ids to label names. -/
abbrev I2L := List (Nat × String)

/-- The keyword set `model_kwargs` handed to the external
`from_pretrained` loader: each of the three keys is present iff `some`. -/
structure ModelKwargs where
  num_labels : Option Nat
  label2id : Option L2I
  id2label : Option I2L

/-- The keyword arguments of `_instantiate`: the three recognized label
options, an optional `model_dir`, and an opaque remainder `rest : R`. -/
structure InstantiateKwargs (R : Type) where
  model_dir : Option String
  label2id : Option L2I
  id2label : Option I2L
  num_labels : Option Nat
  rest : R

/-- The keyword arguments passed to `VecoConfig(**kwargs)` in the
no-directory branch: everything except the popped `model_dir`. -/
structure ConfigKwargs (R : Type) where
  label2id : Option L2I
  id2label : Option I2L
  num_labels : Option Nat
  rest : R

/-- The label-resolution core of `_instantiate` (the `else` branch of the
source, lines 89-104): given the result `parsed` of
`parse_label_mapping(model_dir)` and the explicit keyword overrides,
compute the `model_kwargs` dict passed to `from_pretrained`.

Mirrors the source statement by statement:
`label2id = kwargs.get('label2id', parse_label_mapping(model_dir))`;
`id2label = kwargs.get('id2label', None if label2id is None else inverted)`;
`if id2label is not None and label2id is None: label2id = inverted`;
`num_labels = kwargs.get('num_labels', None if label2id is None else len(label2id))`;
then each key is put into `model_kwargs` iff it is not `None`. -/
def resolveModelKwargs (parsed : Option L2I) (label2id? : Option L2I)
    (id2label? : Option I2L) (num_labels? : Option Nat) : ModelKwargs :=
  let label2id : Option L2I :=
    match label2id? with
    | some d => some d
    | none => parsed
  let id2label : Option I2L :=
    match id2label? with
    | some d => some d
    | none => label2id.map invertDict
  let label2id : Option L2I :=
    match label2id, id2label with
    | none, some d => some (invertDict d)
    | l, _ => l
  let num_labels : Option Nat :=
    match num_labels? with
    | some n => some n
    | none => label2id.map List.length
  ⟨num_labels, label2id, id2label⟩

/-- One external call made by `_instantiate`, in order. -/
inductive ExtCall (R : Type) where
  | parseLabelMapping (model_dir : String)
  | vecoConfig (kwargs : ConfigKwargs R)
  | clsCtor
  | fromPretrained (model_dir : String) (mk : ModelKwargs)

/-- The sequence of external calls `_instantiate` makes, as a function of
the (pure) result of the label-mapping parser. With no `model_dir` it
builds a `VecoConfig` from the remaining kwargs and calls `cls(config)`;
with a `model_dir` it always calls the parser (Python evaluates the
`kwargs.get` default eagerly) and then the loader with the resolved
keyword set. -/
def instantiateCalls {R : Type} (parse : String → Option L2I)
    (kw : InstantiateKwargs R) : List (ExtCall R) :=
  match kw.model_dir with
  | none =>
    [ExtCall.vecoConfig ⟨kw.label2id, kw.id2label, kw.num_labels, kw.rest⟩,
     ExtCall.clsCtor]
  | some dir =>
    [ExtCall.parseLabelMapping dir,
     ExtCall.fromPretrained dir
       (resolveModelKwargs (parse dir) kw.label2id kw.id2label kw.num_labels)]

/-- `_instantiate` with every external collaborator fallible, for the
error-propagation claims. The source has no `try`/`except`: every
delegated failure short-circuits. -/
def instantiateE {R Cfg M E : Type} (parse : String → Except E (Option L2I))
    (mkConfig : ConfigKwargs R → Except E Cfg) (mkModel : Cfg → Except E M)
    (loader : String → ModelKwargs → Except E M)
    (kw : InstantiateKwargs R) : Except E M :=
  match kw.model_dir with
  | none =>
    (mkConfig ⟨kw.label2id, kw.id2label, kw.num_labels, kw.rest⟩).bind mkModel
  | some dir =>
    (parse dir).bind fun parsed =>
      loader dir (resolveModelKwargs parsed kw.label2id kw.id2label kw.num_labels)

/-- The structured result of the delegated
`RobertaForTokenClassification.forward` call (field types opaque). -/
structure TCOutput (L G H A : Type) where
  loss : L
  logits : G
  hidden_states : H
  attentions : A

/-- `modelscope.outputs.AttentionTokenClassificationModelOutput`, the
adapter's own output container (field types opaque). -/
structure ATCModelOutput (L G H A : Type) where
  loss : L
  logits : G
  hidden_states : H
  attentions : A

/-- The kwargs dict the adapter's `forward` passes to the delegated parent
`forward`: the caller's kwargs with `return_dict` set to `True`
(`trueV` is the embedding of Python `True` in the opaque value type `V`). -/
def forwardCallKwargs {V : Type} (trueV : V) (kwargs : List (String × V)) :
    List (String × V) :=
  pyInsert kwargs "return_dict" trueV

/-- `VecoForTokenClassification.forward`: force `return_dict`, delegate,
and repackage the four fields into the adapter's output type. -/
def vecoForward {V Args L G H A : Type} (trueV : V)
    (parentForward : Args → List (String × V) → TCOutput L G H A)
    (args : Args) (kwargs : List (String × V)) : ATCModelOutput L G H A :=
  let outputs := parentForward args (forwardCallKwargs trueV kwargs)
  ⟨outputs.loss, outputs.logits, outputs.hidden_states, outputs.attentions⟩

/-- `forward` with a fallible delegated call, for error propagation. -/
def vecoForwardE {V Args L G H A E : Type} (trueV : V)
    (parentForward : Args → List (String × V) → Except E (TCOutput L G H A))
    (args : Args) (kwargs : List (String × V)) :
    Except E (ATCModelOutput L G H A) :=
  (parentForward args (forwardCallKwargs trueV kwargs)).map
    (fun o => ⟨o.loss, o.logits, o.hidden_states, o.attentions⟩)

/-- The configuration object as `__init__` sees it: an opaque payload with
a `name_or_path` attribute. -/
structure VecoConfigObj (C : Type) where
  name_or_path : String
  payload : C

/-- One delegated initialization performed by `__init__`. -/
inductive InitCall (C K : Type) where
  | torchModel (name_or_path : String) (kwargs : K)
  | robertaTokenClassifier (config : VecoConfigObj C)

/-- `VecoForTokenClassification.__init__(config, **kwargs)`: the ordered
delegated initializations — `super().__init__(config.name_or_path, **kwargs)`
(the generic `TorchModel` wrapper) then
`super(Model, self).__init__(config)` (the task-specific parent). Being a
total function, it performs nothing else and raises nothing itself. -/
def vecoInit {C K : Type} (config : VecoConfigObj C) (kwargs : K) :
    List (InitCall C K) :=
  [InitCall.torchModel config.name_or_path kwargs,
   InitCall.robertaTokenClassifier config]

end VecoTC

namespace VecoTC

/-! ### Dictionary lemmas -/

theorem dget_pyInsert_self {α β : Type} [DecidableEq α]
    (d : List (α × β)) (k : α) (v : β) :
    dget (pyInsert d k v) k = some v := by
  unfold pyInsert
  by_cases hany : d.any (fun p => decide (p.1 = k)) = true
  · simp only [hany, if_true]
    induction d with
    | nil => simp at hany
    | cons p t ih =>
      by_cases hp : p.1 = k
      · simp [dget, hp]
      · have ht : t.any (fun p => decide (p.1 = k)) = true := by
          simpa [List.any_cons, hp] using hany
        simpa [dget, hp] using ih ht
  · simp only [hany, if_false]
    induction d with
    | nil => simp [dget]
    | cons p t ih =>
      have hp : ¬ p.1 = k := by
        intro h
        exact hany (by simp [List.any_cons, h])
      have ht : ¬ t.any (fun p => decide (p.1 = k)) = true := by
        intro h
        exact hany (by simp [List.any_cons, h])
      simpa [dget, hp] using ih ht

theorem dget_pyInsert_ne {α β : Type} [DecidableEq α]
    (d : List (α × β)) (k k' : α) (v : β) (hne : k' ≠ k) :
    dget (pyInsert d k v) k' = dget d k' := by
  have hne' : ¬ k = k' := fun h => hne h.symm
  unfold pyInsert
  by_cases hany : d.any (fun p => decide (p.1 = k)) = true
  · rw [if_pos hany]
    clear hany
    induction d with
    | nil => rfl
    | cons p t ih =>
      by_cases hp : p.1 = k
      · have hp' : ¬ p.1 = k' := by rw [hp]; exact hne'
        simp [dget, hp, hp', hne', hne, ih]
      · by_cases hp' : p.1 = k'
        · simp [dget, hp, hp', hne, hne']
        · simp [dget, hp, hp', ih]
  · rw [if_neg hany]
    clear hany
    induction d with
    | nil => simp [dget, hne']
    | cons p t ih =>
      by_cases hp' : p.1 = k'
      · simp [dget, hp']
      · simp [dget, hp', ih]

theorem lastLookup_cons {α β : Type} [DecidableEq α]
    (p : α × β) (t : List (α × β)) (k : α) :
    lastLookup (p :: t) k =
      match lastLookup t k with
      | some v => some v
      | none => if p.1 = k then some p.2 else none := rfl

theorem dget_foldl_pyInsert {α β : Type} [DecidableEq α]
    (l : List (α × β)) : ∀ (acc : List (α × β)) (k : α),
    dget (l.foldl (fun a p => pyInsert a p.1 p.2) acc) k =
      match lastLookup l k with
      | some v => some v
      | none => dget acc k := by
  induction l with
  | nil => intro acc k; rfl
  | cons p t ih =>
    intro acc k
    simp only [List.foldl_cons, lastLookup_cons]
    rw [ih (pyInsert acc p.1 p.2) k]
    cases hlast : lastLookup t k with
    | some v => simp
    | none =>
      by_cases hp : p.1 = k
      · subst hp
        simp [dget_pyInsert_self]
      · simp [hp, dget_pyInsert_ne acc p.1 k p.2 (fun h => hp h.symm)]

/-- Lookup in a dict built by a comprehension returns the value of the
LAST pair with the given key in the source sequence. -/
theorem dget_pyDict {α β : Type} [DecidableEq α]
    (l : List (α × β)) (k : α) :
    dget (pyDict l) k = lastLookup l k := by
  unfold pyDict
  rw [dget_foldl_pyInsert l [] k]
  cases lastLookup l k <;> rfl

theorem keys_pyInsert_mem {α β : Type} [DecidableEq α]
    (d : List (α × β)) (k v : _) :
    (pyInsert d k v).map Prod.fst =
      if d.any (fun p => decide (p.1 = k)) then d.map Prod.fst
      else d.map Prod.fst ++ [k] := by
  unfold pyInsert
  by_cases hany : d.any (fun p => decide (p.1 = k)) = true
  · simp only [hany, if_true, List.map_map]
    refine List.map_congr_left ?_
    intro p _
    by_cases hp : p.1 = k <;> simp [hp]
  · simp [hany]

theorem keys_nodup_pyInsert {α β : Type} [DecidableEq α]
    (d : List (α × β)) (k : α) (v : β)
    (h : (d.map Prod.fst).Nodup) :
    ((pyInsert d k v).map Prod.fst).Nodup := by
  rw [keys_pyInsert_mem]
  by_cases hany : d.any (fun p => decide (p.1 = k)) = true
  · simpa [hany] using h
  · have hk : k ∉ d.map Prod.fst := by
      intro hmem
      apply hany
      rcases List.mem_map.mp hmem with ⟨p, hp, hpk⟩
      exact List.any_eq_true.mpr ⟨p, hp, by simp [hpk]⟩
    simp only [hany, if_false]
    exact List.Nodup.append h (List.nodup_singleton k)
      (by simpa [List.disjoint_singleton] using hk)

/-- The keys of a dict built by a comprehension have no duplicates. -/
theorem pyDict_keys_nodup {α β : Type} [DecidableEq α]
    (l : List (α × β)) : ((pyDict l).map Prod.fst).Nodup := by
  unfold pyDict
  suffices h : ∀ acc : List (α × β), (acc.map Prod.fst).Nodup →
      ((l.foldl (fun a p => pyInsert a p.1 p.2) acc).map Prod.fst).Nodup by
    exact h [] List.nodup_nil
  induction l with
  | nil => intro acc hacc; exact hacc
  | cons p t ih =>
    intro acc hacc
    exact ih (pyInsert acc p.1 p.2) (keys_nodup_pyInsert acc p.1 p.2 hacc)

theorem lastLookup_isSome_iff {α β : Type} [DecidableEq α]
    (l : List (α × β)) (k : α) :
    (lastLookup l k).isSome = true ↔ k ∈ l.map Prod.fst := by
  induction l with
  | nil => simp [lastLookup]
  | cons p t ih =>
    rw [lastLookup_cons]
    cases hlast : lastLookup t k with
    | some v =>
      simp only [Option.isSome_some, true_iff]
      have : k ∈ t.map Prod.fst := ih.mp (by simp [hlast])
      simp [this]
    | none =>
      have hnt : ¬ k ∈ t.map Prod.fst := by
        intro h
        have := ih.mpr h
        simp [hlast] at this
      by_cases hp : p.1 = k
      · simp [hp, hnt]
      · have hp2 : ¬ k = p.1 := fun h => hp h.symm
        simp [hp, hp2, hnt]

theorem dget_isSome_iff {α β : Type} [DecidableEq α]
    (d : List (α × β)) (k : α) :
    (dget d k).isSome = true ↔ k ∈ d.map Prod.fst := by
  induction d with
  | nil => simp [dget]
  | cons p t ih =>
    by_cases hp : p.1 = k
    · simp [dget, hp]
    · have hp2 : ¬ k = p.1 := fun h => hp h.symm
      simp [dget, hp, hp2, ih]

/-- A key appears in the comprehension-built dict iff it appears in the
source pair sequence. -/
theorem mem_keys_pyDict {α β : Type} [DecidableEq α]
    (l : List (α × β)) (k : α) :
    k ∈ (pyDict l).map Prod.fst ↔ k ∈ l.map Prod.fst := by
  rw [← dget_isSome_iff, dget_pyDict, lastLookup_isSome_iff]

theorem foldl_pyInsert_of_nodup {α β : Type} [DecidableEq α]
    (l : List (α × β)) : ∀ acc : List (α × β),
    (((acc ++ l).map Prod.fst).Nodup) →
    l.foldl (fun a p => pyInsert a p.1 p.2) acc = acc ++ l := by
  induction l with
  | nil => intro acc _; simp
  | cons p t ih =>
    intro acc h
    have hmem : p.1 ∉ acc.map Prod.fst := by
      intro hmem
      have hd : (List.map Prod.fst acc).Disjoint (List.map Prod.fst (p :: t)) := by
        have := h
        rw [List.map_append, List.nodup_append] at this
        exact this.2.2
      exact hd hmem (by simp)
    have hany : ¬ acc.any (fun q => decide (q.1 = p.1)) = true := by
      intro hany
      rcases List.any_eq_true.mp hany with ⟨q, hq, hqk⟩
      exact hmem (List.mem_map.mpr ⟨q, hq, by simpa using hqk⟩)
    have hstep : pyInsert acc p.1 p.2 = acc ++ [p] := by
      unfold pyInsert
      simp [hany]
    simp only [List.foldl_cons, hstep]
    have h' : (((acc ++ [p]) ++ t).map Prod.fst).Nodup := by
      simpa [List.append_assoc] using h
    simpa [List.append_assoc] using ih (acc ++ [p]) h'

/-- Building a dict from pairs with pairwise distinct keys changes
nothing. -/
theorem pyDict_eq_self {α β : Type} [DecidableEq α]
    (l : List (α × β)) (h : (l.map Prod.fst).Nodup) : pyDict l = l := by
  unfold pyDict
  simpa using foldl_pyInsert_of_nodup l [] (by simpa using h)

/-- When the values of `d` are pairwise distinct (the mapping is
injective), the inversion comprehension is the exact inverse: every pair
swapped, order preserved, nothing dropped. -/
theorem invertDict_of_injective {α β : Type} [DecidableEq β]
    (d : List (α × β)) (h : (d.map Prod.snd).Nodup) :
    invertDict d = d.map (fun p => (p.2, p.1)) := by
  unfold invertDict
  apply pyDict_eq_self
  simpa [List.map_map, Function.comp] using h

/-- Round trip: inverting twice is the identity on a bijective dict
(distinct keys and distinct values). -/
theorem invertDict_invertDict {α β : Type} [DecidableEq α] [DecidableEq β]
    (d : List (α × β)) (hkeys : (d.map Prod.fst).Nodup)
    (hvals : (d.map Prod.snd).Nodup) :
    invertDict (invertDict d) = d := by
  rw [invertDict_of_injective d hvals]
  rw [invertDict_of_injective (d.map (fun p => (p.2, p.1)))
    (by simpa [List.map_map, Function.comp] using hkeys)]
  have hcomp : ((fun p : β × α => (p.2, p.1)) ∘ fun p : α × β => (p.2, p.1)) =
      id := by
    funext p
    rfl
  rw [List.map_map, hcomp, List.map_id]

end VecoTC

namespace VecoTC

/-! ### Claim theorems -/

/-- C1: with a model directory and an explicit `label2id` (a well-formed
dict — distinct labels — that is injective — distinct ids, matching the
spec's bijectivity invariant for label mappings), but no explicit
`id2label` and no explicit `num_labels`, the factory calls the external
loader with `num_labels` equal to the entry count of `label2id` and
`id2label` equal to its exact inverse, mapping each id back to its
label. -/
theorem C1_explicit_label2id_derives_inverse {R : Type}
    (parse : String → Option L2I) (dir : String) (d : L2I) (rest : R)
    (hkeys : (d.map Prod.fst).Nodup) (hvals : (d.map Prod.snd).Nodup) :
    instantiateCalls parse ⟨some dir, some d, none, none, rest⟩ =
      [ExtCall.parseLabelMapping dir,
       ExtCall.fromPretrained dir
         ⟨some d.length, some d, some (d.map (fun p => (p.2, p.1)))⟩] := by
  have h := invertDict_of_injective d hvals
  have hcalls : instantiateCalls parse ⟨some dir, some d, none, none, rest⟩ =
      [ExtCall.parseLabelMapping dir,
       ExtCall.fromPretrained dir
         ⟨some d.length, some d, some (invertDict d)⟩] := rfl
  rw [hcalls, h]

theorem C1_witness :
    instantiateCalls (fun _ => none)
      (⟨some "m", some [("B", 0), ("I", 1)], none, none, ()⟩ :
        InstantiateKwargs Unit) =
      [ExtCall.parseLabelMapping "m",
       ExtCall.fromPretrained "m"
         ⟨some 2, some [("B", 0), ("I", 1)], some [(0, "B"), (1, "I")]⟩] :=
  C1_explicit_label2id_derives_inverse (fun _ => none) "m"
    [("B", 0), ("I", 1)] () (by decide) (by decide)

/-- C2: with a model directory, an explicit `id2label` (well-formed and
injective, per the spec's bijectivity invariant), no explicit `label2id`
and no mapping parseable from the directory, the factory derives
`label2id` as the exact inverse of `id2label` and passes it to the loader
(with `num_labels` its entry count and `id2label` passed unchanged), and
inverting the derived `label2id` yields back `id2label` (round trip). -/
theorem C2_explicit_id2label_derives_inverse {R : Type}
    (parse : String → Option L2I) (dir : String) (d : I2L) (rest : R)
    (hparse : parse dir = none)
    (hkeys : (d.map Prod.fst).Nodup) (hvals : (d.map Prod.snd).Nodup) :
    instantiateCalls parse ⟨some dir, none, some d, none, rest⟩ =
      [ExtCall.parseLabelMapping dir,
       ExtCall.fromPretrained dir
         ⟨some d.length, some (d.map (fun p => (p.2, p.1))), some d⟩] ∧
    invertDict (invertDict d) = d := by
  constructor
  · have h := invertDict_of_injective d hvals
    have hcalls : instantiateCalls parse ⟨some dir, none, some d, none, rest⟩ =
        [ExtCall.parseLabelMapping dir,
         ExtCall.fromPretrained dir
           (resolveModelKwargs (parse dir) none (some d) none)] := rfl
    rw [hcalls, hparse]
    show [ExtCall.parseLabelMapping dir,
          ExtCall.fromPretrained dir
            ⟨some (invertDict d).length, some (invertDict d), some d⟩] = _
    rw [h]
    simp
  · exact invertDict_invertDict d hkeys hvals

theorem C2_witness :
    instantiateCalls (fun _ => none)
      (⟨some "m", none, some [(0, "B"), (1, "I")], none, ()⟩ :
        InstantiateKwargs Unit) =
      [ExtCall.parseLabelMapping "m",
       ExtCall.fromPretrained "m"
         ⟨some 2, some [("B", 0), ("I", 1)], some [(0, "B"), (1, "I")]⟩] ∧
    invertDict (invertDict [(0, "B"), (1, "I")]) = [(0, "B"), (1, "I")] :=
  C2_explicit_id2label_derives_inverse (fun _ => none) "m"
    [(0, "B"), (1, "I")] () rfl (by decide) (by decide)

/-- C3: `forward` always calls the delegated parent with `return_dict`
bound to `True` in the kwargs — overwriting any caller-supplied value —
and returns an output object whose four fields are exactly the four
corresponding fields of the delegated call's result, with no other
computation on them. -/
theorem C3_forward_forces_return_dict {V Args L G H A : Type} (trueV : V)
    (parentForward : Args → List (String × V) → TCOutput L G H A)
    (args : Args) (kwargs : List (String × V)) :
    dget (forwardCallKwargs trueV kwargs) "return_dict" = some trueV ∧
    vecoForward trueV parentForward args kwargs =
      ⟨(parentForward args (forwardCallKwargs trueV kwargs)).loss,
       (parentForward args (forwardCallKwargs trueV kwargs)).logits,
       (parentForward args (forwardCallKwargs trueV kwargs)).hidden_states,
       (parentForward args (forwardCallKwargs trueV kwargs)).attentions⟩ :=
  ⟨dget_pyInsert_self kwargs "return_dict" trueV, rfl⟩

/-- C4: with a model directory whose label-mapping parse yields nothing
and no explicit `label2id`, `id2label` or `num_labels`, the loader is
called with the directory path and none of the three label keys in its
keyword set. -/
theorem C4_no_mapping_no_keys {R : Type}
    (parse : String → Option L2I) (dir : String) (rest : R)
    (hparse : parse dir = none) :
    instantiateCalls parse ⟨some dir, none, none, none, rest⟩ =
      [ExtCall.parseLabelMapping dir,
       ExtCall.fromPretrained dir ⟨none, none, none⟩] := by
  have hcalls : instantiateCalls parse ⟨some dir, none, none, none, rest⟩ =
      [ExtCall.parseLabelMapping dir,
       ExtCall.fromPretrained dir
         (resolveModelKwargs (parse dir) none none none)] := rfl
  rw [hcalls, hparse]
  exact rfl

theorem C4_witness :
    instantiateCalls (fun _ => none)
      (⟨some "m", none, none, none, ()⟩ : InstantiateKwargs Unit) =
      [ExtCall.parseLabelMapping "m",
       ExtCall.fromPretrained "m" ⟨none, none, none⟩] :=
  C4_no_mapping_no_keys (fun _ => none) "m" () rfl

/-- C5: with a model directory and both `label2id` and `num_labels`
supplied explicitly (and any `id2label`), both are passed to the loader
exactly as supplied — in particular `num_labels` is not overridden by the
entry count of `label2id`. -/
theorem C5_explicit_values_passed_unchanged {R : Type}
    (parse : String → Option L2I) (dir : String) (d : L2I)
    (i2l? : Option I2L) (n : Nat) (rest : R) :
    (resolveModelKwargs (parse dir) (some d) i2l? (some n)).num_labels =
      some n ∧
    (resolveModelKwargs (parse dir) (some d) i2l? (some n)).label2id =
      some d ∧
    instantiateCalls parse ⟨some dir, some d, i2l?, some n, rest⟩ =
      [ExtCall.parseLabelMapping dir,
       ExtCall.fromPretrained dir
         (resolveModelKwargs (parse dir) (some d) i2l? (some n))] := by
  refine ⟨?_, ?_, rfl⟩
  · cases i2l? <;> rfl
  · cases i2l? <;> rfl

/-- C6: with no model directory, the factory builds a configuration from
the remaining keyword arguments alone and constructs the adapter directly
from it; the label-mapping parser and the checkpoint loader are never
consulted, and the calls made are independent of the parser. -/
theorem C6_no_dir_builds_config_directly {R : Type}
    (parse parse2 : String → Option L2I)
    (l2i? : Option L2I) (i2l? : Option I2L) (nl? : Option Nat) (rest : R) :
    instantiateCalls parse ⟨none, l2i?, i2l?, nl?, rest⟩ =
      [ExtCall.vecoConfig ⟨l2i?, i2l?, nl?, rest⟩, ExtCall.clsCtor] ∧
    instantiateCalls parse ⟨none, l2i?, i2l?, nl?, rest⟩ =
      instantiateCalls parse2 ⟨none, l2i?, i2l?, nl?, rest⟩ ∧
    (∀ dir : String, ExtCall.parseLabelMapping dir ∉
      instantiateCalls parse ⟨none, l2i?, i2l?, nl?, rest⟩) ∧
    (∀ (dir : String) (mk : ModelKwargs), ExtCall.fromPretrained dir mk ∉
      instantiateCalls parse ⟨none, l2i?, i2l?, nl?, rest⟩) ∧
    (∀ (Cfg M E : Type) (parseE : String → Except E (Option L2I))
       (mkConfig : ConfigKwargs R → Except E Cfg)
       (mkModel : Cfg → Except E M)
       (loader : String → ModelKwargs → Except E M),
       instantiateE parseE mkConfig mkModel loader
           ⟨none, l2i?, i2l?, nl?, rest⟩ =
         (mkConfig ⟨l2i?, i2l?, nl?, rest⟩).bind mkModel) := by
  refine ⟨rfl, rfl, ?_, ?_, fun _ _ _ _ _ _ _ => rfl⟩
  · intro dir
    simp [instantiateCalls]
  · intro dir mk
    simp [instantiateCalls]

/-- C7: `__init__` on any configuration object (which always carries its
`name_or_path` identifier) is a total function — it raises nothing — and
performs exactly two delegated initializations in a fixed order: first the
generic trainable-model wrapper with the identifier extracted from the
configuration (and the extra kwargs), then the task-specific model
implementation with the full configuration. -/
theorem C7_init_exactly_two_delegations {C K : Type}
    (config : VecoConfigObj C) (kwargs : K) :
    vecoInit config kwargs =
      [InitCall.torchModel config.name_or_path kwargs,
       InitCall.robertaTokenClassifier config] ∧
    (vecoInit config kwargs).length = 2 :=
  ⟨rfl, rfl⟩

/-- C8: every error of a delegated external call — the parent `forward`,
the label-mapping parser, the configuration constructor, the model
constructor, or the pretrained-weights loader — is returned by the
adapter unchanged: no catching, no recovery, no substitute result. -/
theorem C8_errors_propagate_unchanged :
    (∀ (V Args L G H A E : Type) (trueV : V)
       (pf : Args → List (String × V) → Except E (TCOutput L G H A))
       (args : Args) (kwargs : List (String × V)) (e : E),
       pf args (forwardCallKwargs trueV kwargs) = Except.error e →
       vecoForwardE trueV pf args kwargs = Except.error e) ∧
    (∀ (R Cfg M E : Type) (parse : String → Except E (Option L2I))
       (mkConfig : ConfigKwargs R → Except E Cfg)
       (mkModel : Cfg → Except E M)
       (loader : String → ModelKwargs → Except E M) (dir : String)
       (l2i? : Option L2I) (i2l? : Option I2L) (nl? : Option Nat)
       (rest : R) (e : E),
       parse dir = Except.error e →
       instantiateE parse mkConfig mkModel loader
         ⟨some dir, l2i?, i2l?, nl?, rest⟩ = Except.error e) ∧
    (∀ (R Cfg M E : Type) (parse : String → Except E (Option L2I))
       (mkConfig : ConfigKwargs R → Except E Cfg)
       (mkModel : Cfg → Except E M)
       (loader : String → ModelKwargs → Except E M) (dir : String)
       (l2i? : Option L2I) (i2l? : Option I2L) (nl? : Option Nat)
       (rest : R) (parsed : Option L2I) (e : E),
       parse dir = Except.ok parsed →
       loader dir (resolveModelKwargs parsed l2i? i2l? nl?) =
         Except.error e →
       instantiateE parse mkConfig mkModel loader
         ⟨some dir, l2i?, i2l?, nl?, rest⟩ = Except.error e) ∧
    (∀ (R Cfg M E : Type) (parse : String → Except E (Option L2I))
       (mkConfig : ConfigKwargs R → Except E Cfg)
       (mkModel : Cfg → Except E M)
       (loader : String → ModelKwargs → Except E M)
       (l2i? : Option L2I) (i2l? : Option I2L) (nl? : Option Nat)
       (rest : R) (e : E),
       mkConfig ⟨l2i?, i2l?, nl?, rest⟩ = Except.error e →
       instantiateE parse mkConfig mkModel loader
         ⟨none, l2i?, i2l?, nl?, rest⟩ = Except.error e) ∧
    (∀ (R Cfg M E : Type) (parse : String → Except E (Option L2I))
       (mkConfig : ConfigKwargs R → Except E Cfg)
       (mkModel : Cfg → Except E M)
       (loader : String → ModelKwargs → Except E M)
       (l2i? : Option L2I) (i2l? : Option I2L) (nl? : Option Nat)
       (rest : R) (cfg : Cfg) (e : E),
       mkConfig ⟨l2i?, i2l?, nl?, rest⟩ = Except.ok cfg →
       mkModel cfg = Except.error e →
       instantiateE parse mkConfig mkModel loader
         ⟨none, l2i?, i2l?, nl?, rest⟩ = Except.error e) := by
  refine ⟨?_, ?_, ?_, ?_, ?_⟩
  · intro V Args L G H A E trueV pf args kwargs e h
    show Except.map
        (fun o => (⟨o.loss, o.logits, o.hidden_states, o.attentions⟩ :
          ATCModelOutput L G H A))
        (pf args (forwardCallKwargs trueV kwargs)) = Except.error e
    rw [h]
    exact rfl
  · intro R Cfg M E parse mkConfig mkModel loader dir l2i? i2l? nl? rest e h
    show (parse dir).bind
        (fun parsed => loader dir (resolveModelKwargs parsed l2i? i2l? nl?)) =
      Except.error e
    rw [h]
    exact rfl
  · intro R Cfg M E parse mkConfig mkModel loader dir l2i? i2l? nl? rest
      parsed e hok herr
    show (parse dir).bind
        (fun parsed => loader dir (resolveModelKwargs parsed l2i? i2l? nl?)) =
      Except.error e
    rw [hok]
    show loader dir (resolveModelKwargs parsed l2i? i2l? nl?) = Except.error e
    exact herr
  · intro R Cfg M E parse mkConfig mkModel loader l2i? i2l? nl? rest e h
    show (mkConfig ⟨l2i?, i2l?, nl?, rest⟩).bind mkModel = Except.error e
    rw [h]
    exact rfl
  · intro R Cfg M E parse mkConfig mkModel loader l2i? i2l? nl? rest cfg e
      hok herr
    show (mkConfig ⟨l2i?, i2l?, nl?, rest⟩).bind mkModel = Except.error e
    rw [hok]
    show mkModel cfg = Except.error e
    exact herr

theorem C8_witness :
    vecoForwardE () (fun (_ : Unit) (_ : List (String × Unit)) =>
        (Except.error 5 : Except Nat (TCOutput Unit Unit Unit Unit)))
      () [] = Except.error 5 ∧
    instantiateE (fun _ => (Except.error 5 : Except Nat (Option L2I)))
      (fun (_ : ConfigKwargs Unit) => (Except.ok () : Except Nat Unit))
      (fun _ => Except.ok ()) (fun _ _ => Except.ok ())
      ⟨some "m", none, none, none, ()⟩ = Except.error 5 ∧
    instantiateE (fun _ => (Except.ok none : Except Nat (Option L2I)))
      (fun (_ : ConfigKwargs Unit) => (Except.ok () : Except Nat Unit))
      (fun _ => Except.ok ())
      (fun _ _ => (Except.error 5 : Except Nat Unit))
      ⟨some "m", none, none, none, ()⟩ = Except.error 5 ∧
    instantiateE (fun _ => (Except.ok none : Except Nat (Option L2I)))
      (fun (_ : ConfigKwargs Unit) => (Except.error 5 : Except Nat Unit))
      (fun _ => Except.ok ()) (fun _ _ => Except.ok ())
      ⟨none, none, none, none, ()⟩ = Except.error 5 ∧
    instantiateE (fun _ => (Except.ok none : Except Nat (Option L2I)))
      (fun (_ : ConfigKwargs Unit) => (Except.ok () : Except Nat Unit))
      (fun _ => (Except.error 5 : Except Nat Unit))
      (fun _ _ => Except.ok ())
      ⟨none, none, none, none, ()⟩ = Except.error 5 :=
  ⟨C8_errors_propagate_unchanged.1 Unit Unit Unit Unit Unit Unit Nat ()
      _ () [] 5 rfl,
   C8_errors_propagate_unchanged.2.1 Unit Unit Unit Nat _ _ _ _ "m"
      none none none () 5 rfl,
   C8_errors_propagate_unchanged.2.2.1 Unit Unit Unit Nat _ _ _ _ "m"
      none none none () none 5 rfl rfl,
   C8_errors_propagate_unchanged.2.2.2.1 Unit Unit Unit Nat _ _ _ _
      none none none () 5 rfl,
   C8_errors_propagate_unchanged.2.2.2.2 Unit Unit Unit Nat _ _ _ _
      none none none () () 5 rfl rfl⟩

/-- C9: with a model directory and an explicit `label2id`, the keyword
set the factory passes to the loader (and the whole call sequence) is
independent of what the label-mapping parser returns: two runs differing
only in the parser give identical loader arguments. -/
theorem C9_explicit_label2id_shadows_parse {R : Type}
    (parse1 parse2 : String → Option L2I) (dir : String) (d : L2I)
    (i2l? : Option I2L) (nl? : Option Nat) (rest : R) :
    resolveModelKwargs (parse1 dir) (some d) i2l? nl? =
      resolveModelKwargs (parse2 dir) (some d) i2l? nl? ∧
    instantiateCalls parse1 ⟨some dir, some d, i2l?, nl?, rest⟩ =
      instantiateCalls parse2 ⟨some dir, some d, i2l?, nl?, rest⟩ :=
  ⟨rfl, rfl⟩

/-- C10: with a model directory and an explicit well-formed `label2id`
whose id values may repeat (non-injective), and no explicit `id2label` or
`num_labels`, the derived `id2label` has exactly one entry per distinct id
— the LAST label of each id in iteration order — while `num_labels` is
still the full entry count of `label2id`; on a concrete non-injective
input `num_labels` (3) strictly exceeds the entry count of the `id2label`
passed onward (2). -/
theorem C10_noninjective_label2id_last_wins {R : Type}
    (parse : String → Option L2I) (dir : String) (d : L2I) (rest : R)
    (hkeys : (d.map Prod.fst).Nodup) :
    instantiateCalls parse ⟨some dir, some d, none, none, rest⟩ =
      [ExtCall.parseLabelMapping dir,
       ExtCall.fromPretrained dir
         ⟨some d.length, some d, some (invertDict d)⟩] ∧
    ((invertDict d).map Prod.fst).Nodup ∧
    (∀ i : Nat, i ∈ (invertDict d).map Prod.fst ↔ i ∈ d.map Prod.snd) ∧
    (∀ i : Nat, dget (invertDict d) i =
      lastLookup (d.map (fun p => (p.2, p.1))) i) ∧
    (resolveModelKwargs none
        (some [("A", 0), ("B", 1), ("C", 0)]) none none).num_labels =
      some 3 ∧
    (resolveModelKwargs none
        (some [("A", 0), ("B", 1), ("C", 0)]) none none).id2label =
      some [(0, "C"), (1, "B")] := by
  refine ⟨rfl, pyDict_keys_nodup _, ?_, ?_, by decide, by decide⟩
  · intro i
    rw [invertDict, mem_keys_pyDict]
    simp [List.map_map, Function.comp]
  · intro i
    exact dget_pyDict _ i

theorem C10_witness :
    instantiateCalls (fun _ => none)
      (⟨some "m", some [("A", 0), ("B", 1), ("C", 0)], none, none, ()⟩ :
        InstantiateKwargs Unit) =
      [ExtCall.parseLabelMapping "m",
       ExtCall.fromPretrained "m"
         ⟨some 3, some [("A", 0), ("B", 1), ("C", 0)],
          some [(0, "C"), (1, "B")]⟩] :=
  (C10_noninjective_label2id_last_wins (fun _ => none) "m"
    [("A", 0), ("B", 1), ("C", 0)] () (by decide)).1

end VecoTC
